import Mathlib

/-!
Verification of the table-detection routine of the 8-ball repository
(`src/cv/table_detector.py`).

The detector is a single pure pipeline over one image frame:
BGR→HSV conversion, inclusive per-channel thresholding, morphological
close-then-open cleanup with a 5×5 all-ones structuring element, external
contour extraction, selection of the contour of maximum enclosed area, and
a minimum-area filter (threshold 1000).

The OpenCV primitives that the repository composes (`cv2.cvtColor`,
`cv2.inRange`, `cv2.morphologyEx`, `cv2.contourArea`) are embedded as
executable Lean functions following their documented per-pixel semantics.
`cv2.findContours` (Suzuki border following) is kept as an explicit
function parameter of the embedded `detect_table`: the repository's own
logic is everything around it, and the theorems quantify over the
extraction function (adding, where a claim needs it, the documented
property that an all-zero mask yields no contours).
-/

/-- A raw image buffer as handed to `detect_table`: an `h × w` grid of
pixels with `c` byte channels each; `data y x ch` reads channel `ch` of
the pixel at row `y`, column `x`. -/
structure Frame where
  h : Nat
  w : Nat
  c : Nat
  data : Nat → Nat → Nat → Nat

/-- A three-channel pixel value (used for HSV triples and for the
threshold bounds `lower_green` / `upper_green`). -/
abbrev Pix := Nat × Nat × Nat

/-- A three-channel image, as produced by the color conversion. -/
structure Image where
  h : Nat
  w : Nat
  data : Nat → Nat → Pix

/-- A single-channel image: the binary mask (values 0 / 255 by the
OpenCV convention). -/
structure Mask where
  h : Nat
  w : Nat
  data : Nat → Nat → Nat

/-- A contour: the ordered boundary point sequence `(x, y)` that
`cv2.findContours` returns for one connected region. -/
abbrev Contour := List (Int × Int)

/-- The error kind for malformed input frames: `cv2.cvtColor` rejects an
empty image or one whose channel count does not match the requested
conversion, and `detect_table` installs no handler, so the failure
propagates to the caller. -/
inductive CVError where
  | invalidInput
deriving DecidableEq

/-- A frame `cv2.cvtColor(..., COLOR_BGR2HSV)` accepts: three channels
and strictly positive dimensions. -/
def validFrame (f : Frame) : Prop := f.c = 3 ∧ 0 < f.h ∧ 0 < f.w

instance (f : Frame) : Decidable (validFrame f) :=
  inferInstanceAs (Decidable (f.c = 3 ∧ 0 < f.h ∧ 0 < f.w))

/-- Modelled from the spec: the per-pixel 8-bit BGR→HSV map of
`cv2.cvtColor` ("Convert `frame` from its native color representation to
hue/saturation/value per pixel"): value is the channel maximum,
saturation is `255·(V−min)/V` (0 when `V = 0`), hue is the standard
sector formula scaled to `0–180`. -/
def bgr2hsvPix (b g r : Nat) : Pix :=
  let v := max b (max g r)
  let m := min b (min g r)
  let s := if v = 0 then 0 else (255 * (v - m)) / v
  let d := v - m
  let hdeg : Int :=
    if d = 0 then 0
    else if v = r then (60 * ((g : Int) - (b : Int))) / (d : Int)
    else if v = g then 120 + (60 * ((b : Int) - (r : Int))) / (d : Int)
    else 240 + (60 * ((r : Int) - (g : Int))) / (d : Int)
  let hdeg := if hdeg < 0 then hdeg + 360 else hdeg
  ((hdeg / 2).toNat, s, v)

/-- The HSV image of a (valid) frame: `bgr2hsvPix` applied pixelwise,
reading channels 0, 1, 2 as blue, green, red. -/
def hsvImage (f : Frame) : Image :=
  ⟨f.h, f.w, fun y x => bgr2hsvPix (f.data y x 0) (f.data y x 1) (f.data y x 2)⟩

/-- Modelled from the spec: `cv2.cvtColor(frame, COLOR_BGR2HSV)`.  The
library raises (here: `CVError.invalidInput`) on an empty frame or a
channel-count mismatch; otherwise it converts every pixel. -/
def cvtColorBGR2HSV (f : Frame) : Except CVError Image :=
  if validFrame f then .ok (hsvImage f) else .error .invalidInput

/-- Componentwise `≤` on three-channel pixel values. -/
def pixLE (p q : Pix) : Prop := p.1 ≤ q.1 ∧ p.2.1 ≤ q.2.1 ∧ p.2.2 ≤ q.2.2

instance (p q : Pix) : Decidable (pixLE p q) :=
  inferInstanceAs (Decidable (p.1 ≤ q.1 ∧ p.2.1 ≤ q.2.1 ∧ p.2.2 ≤ q.2.2))

/-- Modelled from the spec: `cv2.inRange` — a cell is 255 when the pixel
lies within the inclusive componentwise bounds, else 0. -/
def inRange (img : Image) (lo hi : Pix) : Mask :=
  ⟨img.h, img.w, fun y x =>
    if pixLE lo (img.data y x) ∧ pixLE (img.data y x) hi then 255 else 0⟩

/-- Read a mask cell at possibly out-of-range integer coordinates,
substituting the border value `b` outside the image (OpenCV's default
morphology border: 0 for dilation, 255 for erosion). -/
def getB (m : Mask) (b : Nat) (y x : Int) : Nat :=
  if 0 ≤ y ∧ y < (m.h : Int) ∧ 0 ≤ x ∧ x < (m.w : Int) then m.data y.toNat x.toNat else b

/-- Offsets of the 5×5 all-ones structuring element
(`np.ones((5, 5), np.uint8)`) around its centered anchor. -/
def ks : List Int := [-2, -1, 0, 1, 2]

/-- The 25 mask values covered by the 5×5 kernel anchored at `(y, x)`,
with border value `b`. -/
def nbhd (m : Mask) (b : Nat) (y x : Nat) : List Nat :=
  ks.flatMap fun dy => ks.map fun dx => getB m b ((y : Int) + dy) ((x : Int) + dx)

/-- Modelled from the spec: `cv2.dilate` with the 5×5 all-ones kernel —
each output cell is the neighborhood maximum. -/
def dilate (m : Mask) : Mask :=
  ⟨m.h, m.w, fun y x => (nbhd m 0 y x).foldl max 0⟩

/-- Modelled from the spec: `cv2.erode` with the 5×5 all-ones kernel —
each output cell is the neighborhood minimum. -/
def erode (m : Mask) : Mask :=
  ⟨m.h, m.w, fun y x => (nbhd m 255 y x).foldl min 255⟩

/-- The two morphology operations `detect_table` requests. -/
inductive MorphOp where
  | MORPH_CLOSE
  | MORPH_OPEN
deriving DecidableEq

/-- Modelled from the spec: `cv2.morphologyEx` — closing is
dilate-then-erode, opening is erode-then-dilate. -/
def morphologyEx (m : Mask) : MorphOp → Mask
  | .MORPH_CLOSE => erode (dilate m)
  | .MORPH_OPEN => dilate (erode m)

/-- Twice the signed cross product term of the shoelace formula. -/
def cross (p q : Int × Int) : Int := p.1 * q.2 - q.1 * p.2

/-- Shoelace accumulation along the rest of a contour, closing back to
the first point `p0`. -/
def shoelaceFrom (p0 : Int × Int) : Int × Int → List (Int × Int) → Int
  | prev, [] => cross prev p0
  | prev, q :: qs => cross prev q + shoelaceFrom p0 q qs

/-- Twice the signed enclosed area of a closed polygon (Green's
theorem / shoelace formula over the boundary point sequence). -/
def shoelace2 : Contour → Int
  | [] => 0
  | p :: ps => shoelaceFrom p p ps

/-- Modelled from the spec: `cv2.contourArea` — the absolute enclosed
area by the shoelace formula; a degenerate (empty, single-point or
collinear) contour has area 0. -/
def contourArea (cnt : Contour) : ℚ := ((shoelace2 cnt).natAbs : ℚ) / 2

/-- Python's `max(contours, key=cv2.contourArea)` starting from a first
candidate: the running best is replaced only when a later element has a
strictly larger key, so the first element attaining the maximum wins. -/
def maxByArea : Contour → List Contour → Contour
  | best, [] => best
  | best, cnt :: rest =>
    if contourArea best < contourArea cnt then maxByArea cnt rest else maxByArea best rest

/-- The detector configuration fixed by `TableDetector.__init__`. -/
structure TableDetector where
  lower_green : Pix
  upper_green : Pix

/-- `TableDetector.__init__`: the default green-felt HSV range. -/
def TableDetector.init : TableDetector :=
  ⟨(35, 50, 50), (85, 255, 255)⟩

/-- Embedding of `TableDetector.detect_table`.  `find` stands for
`cv2.findContours(mask, RETR_EXTERNAL, CHAIN_APPROX_SIMPLE)`, external
library code supplied as a parameter; everything else mirrors the Python
body line by line: convert to HSV, threshold, close then open, extract
contours, return `(None, mask)` when there are none, otherwise take the
area-maximal contour and reject it when its area is below 1000. -/
def detect_table (find : Mask → List Contour) (self : TableDetector) (frame : Frame) :
    Except CVError (Option Contour × Mask) :=
  (cvtColorBGR2HSV frame).bind fun hsv =>
    let mask := inRange hsv self.lower_green self.upper_green
    let mask := morphologyEx mask .MORPH_CLOSE
    let mask := morphologyEx mask .MORPH_OPEN
    let contours := find mask
    match contours with
    | [] => .ok (none, mask)
    | cnt :: rest =>
      let table_contour := maxByArea cnt rest
      if contourArea table_contour < 1000 then .ok (none, mask)
      else .ok (some table_contour, mask)

/-- The cleaned mask `detect_table` computes for a valid frame:
threshold, then closing, then opening. -/
def cleanedMask (self : TableDetector) (f : Frame) : Mask :=
  morphologyEx
    (morphologyEx (inRange (hsvImage f) self.lower_green self.upper_green) .MORPH_CLOSE)
    .MORPH_OPEN

/-- State-explicit embedding of `TableDetector.detect_table`: the same
body, additionally returning the frame and the detector configuration as
they stand after the call.  Every OpenCV call in the Python body
allocates a fresh output array and writes neither its input nor `self`,
so the threaded state is returned unchanged. -/
def detect_table_st (find : Mask → List Contour) (self : TableDetector) (frame : Frame) :
    Except CVError (Option Contour × Mask) × Frame × TableDetector :=
  ((cvtColorBGR2HSV frame).bind fun hsv =>
    let mask := inRange hsv self.lower_green self.upper_green
    let mask := morphologyEx mask .MORPH_CLOSE
    let mask := morphologyEx mask .MORPH_OPEN
    let contours := find mask
    match contours with
    | [] => .ok (none, mask)
    | cnt :: rest =>
      let table_contour := maxByArea cnt rest
      if contourArea table_contour < 1000 then .ok (none, mask)
      else .ok (some table_contour, mask),
   frame, self)

def zeroOn (m : Mask) : Prop := ∀ y x, y < m.h → x < m.w → m.data y x = 0

def binOn (m : Mask) : Prop := ∀ y x, m.data y x = 0 ∨ m.data y x = 255

def greenFrame : Frame := ⟨4, 4, 3, fun _ _ ch => if ch = 1 then 255 else 0⟩

def blackFrame : Frame := ⟨1, 1, 3, fun _ _ _ => 0⟩

def grayFrame : Frame := ⟨4, 4, 1, fun _ _ _ => 128⟩

def sqSmall : Contour := [(0, 0), (10, 0), (10, 10), (0, 10)]

def sqMid : Contour := [(0, 0), (60, 0), (60, 60), (0, 60)]

def sqBig : Contour := [(0, 0), (100, 0), (100, 100), (0, 100)]

def sqBig2 : Contour := [(200, 0), (300, 0), (300, 100), (200, 100)]

def findNone : Mask → List Contour := fun _ => []

def findSmall : Mask → List Contour := fun m => if 0 < m.h then [sqSmall] else []

def findTwo : Mask → List Contour := fun m => if 0 < m.h then [sqMid, sqBig] else []

def findTie : Mask → List Contour := fun m => if 0 < m.h then [sqBig, sqBig2] else []

lemma hsvImage_h (f : Frame) : (hsvImage f).h = f.h := by unfold hsvImage; rfl

lemma hsvImage_w (f : Frame) : (hsvImage f).w = f.w := by unfold hsvImage; rfl

lemma inRange_h (img : Image) (lo hi : Pix) : (inRange img lo hi).h = img.h := by
  unfold inRange; rfl

lemma inRange_w (img : Image) (lo hi : Pix) : (inRange img lo hi).w = img.w := by
  unfold inRange; rfl

lemma inRange_data (img : Image) (lo hi : Pix) (y x : Nat) :
    (inRange img lo hi).data y x =
      if pixLE lo (img.data y x) ∧ pixLE (img.data y x) hi then 255 else 0 := by
  unfold inRange; rfl

lemma dilate_h (m : Mask) : (dilate m).h = m.h := by unfold dilate; rfl

lemma dilate_w (m : Mask) : (dilate m).w = m.w := by unfold dilate; rfl

lemma dilate_data (m : Mask) (y x : Nat) :
    (dilate m).data y x = (nbhd m 0 y x).foldl max 0 := by unfold dilate; rfl

lemma erode_h (m : Mask) : (erode m).h = m.h := by unfold erode; rfl

lemma erode_w (m : Mask) : (erode m).w = m.w := by unfold erode; rfl

lemma erode_data (m : Mask) (y x : Nat) :
    (erode m).data y x = (nbhd m 255 y x).foldl min 255 := by unfold erode; rfl

lemma morphologyEx_close (m : Mask) : morphologyEx m .MORPH_CLOSE = erode (dilate m) := rfl

lemma morphologyEx_open (m : Mask) : morphologyEx m .MORPH_OPEN = dilate (erode m) := rfl

lemma cleanedMask_h (self : TableDetector) (f : Frame) : (cleanedMask self f).h = f.h := by
  unfold cleanedMask
  rw [morphologyEx_open, morphologyEx_close, dilate_h, erode_h, erode_h, dilate_h,
    inRange_h, hsvImage_h]

lemma cleanedMask_w (self : TableDetector) (f : Frame) : (cleanedMask self f).w = f.w := by
  unfold cleanedMask
  rw [morphologyEx_open, morphologyEx_close, dilate_w, erode_w, erode_w, dilate_w,
    inRange_w, hsvImage_w]

lemma cvtColor_ok (f : Frame) (hv : validFrame f) : cvtColorBGR2HSV f = .ok (hsvImage f) := by
  unfold cvtColorBGR2HSV
  rw [if_pos hv]

lemma detect_eq (find : Mask → List Contour) (self : TableDetector) (f : Frame)
    (hv : validFrame f) :
    detect_table find self f =
      match find (cleanedMask self f) with
      | [] => .ok (none, cleanedMask self f)
      | cnt :: rest =>
        if contourArea (maxByArea cnt rest) < 1000 then .ok (none, cleanedMask self f)
        else .ok (some (maxByArea cnt rest), cleanedMask self f) := by
  unfold detect_table
  rw [cvtColor_ok f hv]
  rfl

lemma detect_invalid (find : Mask → List Contour) (self : TableDetector) (f : Frame)
    (hv : ¬ validFrame f) : detect_table find self f = .error .invalidInput := by
  unfold detect_table cvtColorBGR2HSV
  rw [if_neg hv]
  rfl

lemma detect_eq_nil (find : Mask → List Contour) (self : TableDetector) (f : Frame)
    (hv : validFrame f) (hfind : find (cleanedMask self f) = []) :
    detect_table find self f = .ok (none, cleanedMask self f) := by
  rw [detect_eq find self f hv, hfind]

lemma detect_eq_cons (find : Mask → List Contour) (self : TableDetector) (f : Frame)
    (cnt : Contour) (rest : List Contour) (hv : validFrame f)
    (hfind : find (cleanedMask self f) = cnt :: rest) :
    detect_table find self f =
      if contourArea (maxByArea cnt rest) < 1000 then .ok (none, cleanedMask self f)
      else .ok (some (maxByArea cnt rest), cleanedMask self f) := by
  rw [detect_eq find self f hv, hfind]

lemma maxByArea_mem (cnt : Contour) (rest : List Contour) : maxByArea cnt rest ∈ cnt :: rest := by
  induction rest generalizing cnt with
  | nil => simp [maxByArea]
  | cons e tail ih =>
    unfold maxByArea
    by_cases h : contourArea cnt < contourArea e
    · rw [if_pos h]
      have := ih e
      simp at this ⊢
      tauto
    · rw [if_neg h]
      have := ih cnt
      simp at this ⊢
      tauto

lemma le_maxByArea (cnt : Contour) (rest : List Contour) :
    ∀ d ∈ cnt :: rest, contourArea d ≤ contourArea (maxByArea cnt rest) := by
  induction rest generalizing cnt with
  | nil => simp [maxByArea]
  | cons e tail ih =>
    intro d hd
    unfold maxByArea
    by_cases h : contourArea cnt < contourArea e
    · rw [if_pos h]
      rcases List.mem_cons.mp hd with rfl | hd
      · exact le_trans (le_of_lt h) (ih e e (List.mem_cons_self e tail))
      · rcases List.mem_cons.mp hd with rfl | hd
        · exact ih d d (List.mem_cons_self d tail)
        · exact ih e d (List.mem_cons_of_mem e hd)
    · rw [if_neg h]
      rcases List.mem_cons.mp hd with rfl | hd
      · exact ih d d (List.mem_cons_self d tail)
      · rcases List.mem_cons.mp hd with rfl | hd
        · exact le_trans (le_of_not_lt h) (ih cnt cnt (List.mem_cons_self cnt tail))
        · exact ih cnt d (List.mem_cons_of_mem cnt hd)

lemma maxByArea_first (cnt : Contour) (rest : List Contour) :
    ∃ l1 l2, cnt :: rest = l1 ++ maxByArea cnt rest :: l2 ∧
      ∀ d ∈ l1, contourArea d < contourArea (maxByArea cnt rest) := by
  induction rest generalizing cnt with
  | nil => exact ⟨[], [], by simp [maxByArea]⟩
  | cons e tail ih =>
    unfold maxByArea
    by_cases h : contourArea cnt < contourArea e
    · rw [if_pos h]
      obtain ⟨l1, l2, heq, hlt⟩ := ih e
      refine ⟨cnt :: l1, l2, by simp [heq], ?_⟩
      intro d hd
      rcases List.mem_cons.mp hd with rfl | hd
      · exact lt_of_lt_of_le h (le_maxByArea e tail e (List.mem_cons_self e tail))
      · exact hlt d hd
    · rw [if_neg h]
      obtain ⟨l1, l2, heq, hlt⟩ := ih cnt
      cases l1 with
      | nil =>
        simp at heq
        exact ⟨[], e :: tail, by simp only [List.nil_append]; rw [← heq.1], by simp⟩
      | cons a l1t =>
        simp at heq
        obtain ⟨rfl, htail⟩ := heq
        refine ⟨cnt :: e :: l1t, l2, by (conv_lhs => rw [htail]); simp, ?_⟩
        intro d hd
        rcases List.mem_cons.mp hd with rfl | hd
        · exact hlt d (List.mem_cons_self d l1t)
        · rcases List.mem_cons.mp hd with rfl | hd
          · exact lt_of_le_of_lt (le_of_not_lt h)
              (hlt cnt (List.mem_cons_self cnt l1t))
          · exact hlt d (List.mem_cons_of_mem cnt hd)

lemma foldl_max_const (l : List Nat) (a : Nat) (h : ∀ v ∈ l, v = 0) : l.foldl max a = a := by
  induction l generalizing a with
  | nil => rfl
  | cons v t ih =>
    have hv : v = 0 := h v (List.mem_cons_self v t)
    simp only [List.foldl_cons, hv, Nat.max_zero]
    exact ih a fun w hw => h w (List.mem_cons_of_mem v hw)

lemma foldl_min_le_init (l : List Nat) (a : Nat) : l.foldl min a ≤ a := by
  induction l generalizing a with
  | nil => exact le_refl a
  | cons v t ih =>
    simp only [List.foldl_cons]
    exact le_trans (ih (min a v)) (min_le_left a v)

lemma foldl_min_le_mem (l : List Nat) : ∀ a v : Nat, v ∈ l → l.foldl min a ≤ v := by
  induction l with
  | nil => intro a v hv; cases hv
  | cons w t ih =>
    intro a v hv
    simp only [List.foldl_cons]
    rcases List.mem_cons.mp hv with rfl | hv
    · exact le_trans (foldl_min_le_init t (min a v)) (min_le_right a v)
    · exact ih (min a w) v hv

lemma foldl_max_bin (l : List Nat) (a : Nat) (ha : a = 0 ∨ a = 255)
    (h : ∀ v ∈ l, v = 0 ∨ v = 255) : l.foldl max a = 0 ∨ l.foldl max a = 255 := by
  induction l generalizing a with
  | nil => exact ha
  | cons v t ih =>
    simp only [List.foldl_cons]
    refine ih (max a v) ?_ fun w hw => h w (List.mem_cons_of_mem v hw)
    rcases ha with ha | ha <;> rcases h v (List.mem_cons_self v t) with hv | hv <;>
      simp [ha, hv]

lemma foldl_min_bin (l : List Nat) (a : Nat) (ha : a = 0 ∨ a = 255)
    (h : ∀ v ∈ l, v = 0 ∨ v = 255) : l.foldl min a = 0 ∨ l.foldl min a = 255 := by
  induction l generalizing a with
  | nil => exact ha
  | cons v t ih =>
    simp only [List.foldl_cons]
    refine ih (min a v) ?_ fun w hw => h w (List.mem_cons_of_mem v hw)
    rcases ha with ha | ha <;> rcases h v (List.mem_cons_self v t) with hv | hv <;>
      simp [ha, hv]

lemma nbhd_vals (m : Mask) (b : Nat) (y x : Nat) :
    ∀ v ∈ nbhd m b y x, v = b ∨ ∃ j i, j < m.h ∧ i < m.w ∧ v = m.data j i := by
  intro v hv
  unfold nbhd at hv
  obtain ⟨dy, _, hv⟩ := List.mem_flatMap.mp hv
  obtain ⟨dx, _, rfl⟩ := List.mem_map.mp hv
  unfold getB
  by_cases hin : 0 ≤ (y : Int) + dy ∧ (y : Int) + dy < (m.h : Int) ∧
      0 ≤ (x : Int) + dx ∧ (x : Int) + dx < (m.w : Int)
  · rw [if_pos hin]
    right
    exact ⟨((y : Int) + dy).toNat, ((x : Int) + dx).toNat, by omega, by omega, rfl⟩
  · rw [if_neg hin]
    left
    rfl

lemma center_mem_nbhd (m : Mask) (b : Nat) (y x : Nat) (hy : y < m.h) (hx : x < m.w) :
    m.data y x ∈ nbhd m b y x := by
  unfold nbhd
  refine List.mem_flatMap.mpr ⟨0, by simp [ks], ?_⟩
  refine List.mem_map.mpr ⟨0, by simp [ks], ?_⟩
  unfold getB
  rw [if_pos (by omega)]
  norm_num

lemma dilate_zeroOn (m : Mask) (hm : zeroOn m) : zeroOn (dilate m) := by
  intro y x hy hx
  rw [dilate_data]
  refine foldl_max_const _ _ fun v hv => ?_
  rcases nbhd_vals m 0 y x v hv with rfl | ⟨j, i, hj, hi, rfl⟩
  · rfl
  · exact hm j i hj hi

lemma erode_zeroOn (m : Mask) (hm : zeroOn m) : zeroOn (erode m) := by
  intro y x hy hx
  rw [erode_h] at hy
  rw [erode_w] at hx
  rw [erode_data]
  have hc : m.data y x ∈ nbhd m 255 y x := center_mem_nbhd m 255 y x hy hx
  have hle := foldl_min_le_mem (nbhd m 255 y x) 255 (m.data y x) hc
  have hz := hm y x hy hx
  rw [hz] at hle
  exact Nat.le_zero.mp hle

lemma inRange_binOn (img : Image) (lo hi : Pix) : binOn (inRange img lo hi) := by
  intro y x
  rw [inRange_data]
  split
  · right; rfl
  · left; rfl

lemma dilate_binOn (m : Mask) (hm : binOn m) : binOn (dilate m) := by
  intro y x
  rw [dilate_data]
  refine foldl_max_bin _ _ (Or.inl rfl) fun v hv => ?_
  rcases nbhd_vals m 0 y x v hv with rfl | ⟨j, i, _, _, rfl⟩
  · exact Or.inl rfl
  · exact hm j i

lemma erode_binOn (m : Mask) (hm : binOn m) : binOn (erode m) := by
  intro y x
  rw [erode_data]
  refine foldl_min_bin _ _ (Or.inr rfl) fun v hv => ?_
  rcases nbhd_vals m 255 y x v hv with rfl | ⟨j, i, _, _, rfl⟩
  · exact Or.inr rfl
  · exact hm j i

lemma cleanedMask_binOn (self : TableDetector) (f : Frame) : binOn (cleanedMask self f) := by
  unfold cleanedMask
  rw [morphologyEx_open, morphologyEx_close]
  exact dilate_binOn _ (erode_binOn _ (erode_binOn _ (dilate_binOn _ (inRange_binOn _ _ _))))

lemma cleanedMask_zeroOn (self : TableDetector) (f : Frame)
    (h : ∀ y x, y < f.h → x < f.w →
      ¬ (pixLE self.lower_green ((hsvImage f).data y x) ∧
         pixLE ((hsvImage f).data y x) self.upper_green)) :
    zeroOn (cleanedMask self f) := by
  have h0 : zeroOn (inRange (hsvImage f) self.lower_green self.upper_green) := by
    intro y x hy hx
    rw [inRange_h, hsvImage_h] at hy
    rw [inRange_w, hsvImage_w] at hx
    rw [inRange_data]
    exact if_neg (h y x hy hx)
  unfold cleanedMask
  rw [morphologyEx_open, morphologyEx_close]
  exact dilate_zeroOn _ (erode_zeroOn _ (erode_zeroOn _ (dilate_zeroOn _ h0)))

lemma contourArea_lt_1000 (c : Contour) (h : (shoelace2 c).natAbs < 2000) :
    contourArea c < 1000 := by
  unfold contourArea
  rw [div_lt_iff₀ (by norm_num : (0:ℚ) < 2)]
  have : ((shoelace2 c).natAbs : ℚ) < ((2000 : Nat) : ℚ) := by exact_mod_cast h
  calc ((shoelace2 c).natAbs : ℚ) < ((2000 : Nat) : ℚ) := this
    _ = 1000 * 2 := by norm_num

lemma le_1000_contourArea (c : Contour) (h : 2000 ≤ (shoelace2 c).natAbs) :
    (1000 : ℚ) ≤ contourArea c := by
  unfold contourArea
  rw [le_div_iff₀ (by norm_num : (0:ℚ) < 2)]
  have : ((2000 : Nat) : ℚ) ≤ ((shoelace2 c).natAbs : ℚ) := by exact_mod_cast h
  calc (1000 : ℚ) * 2 = ((2000 : Nat) : ℚ) := by norm_num
    _ ≤ _ := this

lemma contourArea_lt_contourArea (a b : Contour)
    (h : (shoelace2 a).natAbs < (shoelace2 b).natAbs) : contourArea a < contourArea b := by
  unfold contourArea
  apply div_lt_div_of_pos_right ?_ (by norm_num)
  exact_mod_cast h

lemma maxByArea_cons_of_lt (best cnt : Contour) (rest : List Contour)
    (h : contourArea best < contourArea cnt) :
    maxByArea best (cnt :: rest) = maxByArea cnt rest := by
  conv_lhs => rw [maxByArea]
  rw [if_pos h]

lemma maxMidBig : maxByArea sqMid [sqBig] = sqBig := by
  rw [maxByArea_cons_of_lt sqMid sqBig []
    (contourArea_lt_contourArea sqMid sqBig (by decide))]
  rfl

lemma ge1000_maxMidBig : (1000 : ℚ) ≤ contourArea (maxByArea sqMid [sqBig]) := by
  rw [maxMidBig]
  exact le_1000_contourArea sqBig (by decide)

lemma maxByArea_cons_of_not_lt (best cnt : Contour) (rest : List Contour)
    (h : ¬ contourArea best < contourArea cnt) :
    maxByArea best (cnt :: rest) = maxByArea best rest := by
  conv_lhs => rw [maxByArea]
  rw [if_neg h]

lemma contourArea_congr (a b : Contour)
    (h : (shoelace2 a).natAbs = (shoelace2 b).natAbs) : contourArea a = contourArea b := by
  unfold contourArea
  rw [h]

lemma maxBigTie : maxByArea sqBig [sqBig2] = sqBig := by
  rw [maxByArea_cons_of_not_lt sqBig sqBig2 []
    (not_lt.mpr (le_of_eq (contourArea_congr sqBig2 sqBig (by decide))))]
  rfl

lemma ge1000_maxBigTie : (1000 : ℚ) ≤ contourArea (maxByArea sqBig [sqBig2]) := by
  rw [maxBigTie]
  exact le_1000_contourArea sqBig (by decide)

/-- C1: if the area-maximal contour extracted from the cleaned mask has enclosed area
strictly below 1000, `detect_table` returns `(none, mask)`; consequently any returned
contour has enclosed area at least 1000. -/
theorem detect_min_area_filter :
    (∀ (find : Mask → List Contour) (self : TableDetector) (f : Frame) (cnt : Contour)
        (rest : List Contour), validFrame f → find (cleanedMask self f) = cnt :: rest →
        contourArea (maxByArea cnt rest) < 1000 →
        detect_table find self f = .ok (none, cleanedMask self f)) ∧
    (∀ (find : Mask → List Contour) (self : TableDetector) (f : Frame) (cnt : Contour)
        (m : Mask), detect_table find self f = .ok (some cnt, m) →
        (1000 : ℚ) ≤ contourArea cnt) := by
  constructor
  · intro find self f cnt rest hv hfind harea
    rw [detect_eq_cons find self f cnt rest hv hfind, if_pos harea]
  · intro find self f cnt m h
    by_cases hv : validFrame f
    · cases hfind : find (cleanedMask self f) with
      | nil =>
        rw [detect_eq_nil find self f hv hfind] at h
        simp at h
      | cons c rest =>
        rw [detect_eq_cons find self f c rest hv hfind] at h
        by_cases harea : contourArea (maxByArea c rest) < 1000
        · rw [if_pos harea] at h
          simp at h
        · rw [if_neg harea] at h
          simp only [Except.ok.injEq, Prod.mk.injEq, Option.some.injEq] at h
          rw [← h.1]
          exact le_of_not_lt harea
    · rw [detect_invalid find self f hv] at h
      exact absurd h (by simp)

/-- Witness for C1: a single contour of area 100 is rejected on a concrete frame. -/
theorem detect_min_area_filter_w :
    detect_table findSmall TableDetector.init greenFrame =
      .ok (none, cleanedMask TableDetector.init greenFrame) :=
  detect_min_area_filter.1 findSmall TableDetector.init greenFrame sqSmall []
    (by decide) (by decide) (contourArea_lt_1000 sqSmall (by decide))

/-- C2: whenever the cleaned mask yields at least one contour and the area-maximal
one passes the minimum-area filter, `detect_table` returns exactly that contour,
which is one of the extracted contours and has maximal enclosed area among them
(so of two disjoint regions both above the threshold, the larger one wins). -/
theorem detect_selects_max :
    ∀ (find : Mask → List Contour) (self : TableDetector) (f : Frame) (cnt : Contour)
      (rest : List Contour), validFrame f → find (cleanedMask self f) = cnt :: rest →
      (1000 : ℚ) ≤ contourArea (maxByArea cnt rest) →
      detect_table find self f = .ok (some (maxByArea cnt rest), cleanedMask self f) ∧
      maxByArea cnt rest ∈ cnt :: rest ∧
      ∀ d ∈ cnt :: rest, contourArea d ≤ contourArea (maxByArea cnt rest) := by
  intro find self f cnt rest hv hfind harea
  refine ⟨?_, maxByArea_mem cnt rest, le_maxByArea cnt rest⟩
  rw [detect_eq_cons find self f cnt rest hv hfind, if_neg (not_lt.mpr harea)]

/-- Witness for C2: with two extracted contours of areas 3600 and 10000 on a concrete
frame, the returned contour is the larger one and dominates the smaller one. -/
theorem detect_selects_max_w :
    detect_table findTwo TableDetector.init greenFrame =
      .ok (some (maxByArea sqMid [sqBig]), cleanedMask TableDetector.init greenFrame) ∧
    maxByArea sqMid [sqBig] ∈ [sqMid, sqBig] ∧
    contourArea sqMid ≤ contourArea (maxByArea sqMid [sqBig]) := by
  have h := detect_selects_max findTwo TableDetector.init greenFrame sqMid [sqBig]
    (by decide) (by decide) ge1000_maxMidBig
  exact ⟨h.1, h.2.1, h.2.2 sqMid (by simp)⟩

/-- C3: the threshold mask marks a pixel inside (255) exactly when its HSV triple
lies componentwise within the inclusive bounds (35, 50, 50) and (85, 255, 255),
and 0 otherwise; for a frame with no pixel in range, `detect_table` returns
`(none, mask)` with every in-bounds mask cell 0. -/
theorem thresh_mask_iff :
    (TableDetector.init.lower_green = (35, 50, 50) ∧
     TableDetector.init.upper_green = (85, 255, 255)) ∧
    (∀ (f : Frame) (y x : Nat),
      ((inRange (hsvImage f) TableDetector.init.lower_green
          TableDetector.init.upper_green).data y x = 255 ↔
        pixLE TableDetector.init.lower_green ((hsvImage f).data y x) ∧
        pixLE ((hsvImage f).data y x) TableDetector.init.upper_green) ∧
      ((inRange (hsvImage f) TableDetector.init.lower_green
          TableDetector.init.upper_green).data y x = 0 ↔
        ¬ (pixLE TableDetector.init.lower_green ((hsvImage f).data y x) ∧
           pixLE ((hsvImage f).data y x) TableDetector.init.upper_green))) ∧
    (∀ (find : Mask → List Contour) (f : Frame), validFrame f →
      (∀ y x, y < f.h → x < f.w →
        ¬ (pixLE TableDetector.init.lower_green ((hsvImage f).data y x) ∧
           pixLE ((hsvImage f).data y x) TableDetector.init.upper_green)) →
      (∀ m : Mask, zeroOn m → find m = []) →
      detect_table find TableDetector.init f =
        .ok (none, cleanedMask TableDetector.init f) ∧
      zeroOn (cleanedMask TableDetector.init f)) := by
  refine ⟨⟨rfl, rfl⟩, ?_, ?_⟩
  · intro f y x
    constructor
    · by_cases hp : pixLE TableDetector.init.lower_green ((hsvImage f).data y x) ∧
        pixLE ((hsvImage f).data y x) TableDetector.init.upper_green
      · rw [inRange_data, if_pos hp]
        simp [hp]
      · rw [inRange_data, if_neg hp]
        simp [hp]
    · by_cases hp : pixLE TableDetector.init.lower_green ((hsvImage f).data y x) ∧
        pixLE ((hsvImage f).data y x) TableDetector.init.upper_green
      · rw [inRange_data, if_pos hp]
        simp [hp]
      · rw [inRange_data, if_neg hp]
        simp [hp]
  · intro find f hv hbg hfe
    have hzero := cleanedMask_zeroOn TableDetector.init f hbg
    exact ⟨detect_eq_nil find TableDetector.init f hv (hfe _ hzero), hzero⟩

/-- Witness for C3: an all-black 1×1 frame produces the none result with an
all-zero mask. -/
theorem thresh_mask_iff_w :
    detect_table findNone TableDetector.init blackFrame =
      .ok (none, cleanedMask TableDetector.init blackFrame) ∧
    zeroOn (cleanedMask TableDetector.init blackFrame) :=
  thresh_mask_iff.2.2 findNone blackFrame (by decide)
    (by
      intro y x hy hx
      have hy0 : y = 0 := Nat.lt_one_iff.mp hy
      have hx0 : x = 0 := Nat.lt_one_iff.mp hx
      subst hy0
      subst hx0
      decide)
    (fun _ _ => rfl)

/-- C4: the morphological cleanup is a closing (dilate then erode) followed by an
opening (erode then dilate), both with the same 5×5 kernel, and both the contour
extraction and the returned mask use the result of this close-then-open cleanup. -/
theorem detect_morph_order :
    (∀ m : Mask, morphologyEx m .MORPH_CLOSE = erode (dilate m)) ∧
    (∀ m : Mask, morphologyEx m .MORPH_OPEN = dilate (erode m)) ∧
    (∀ (self : TableDetector) (f : Frame), cleanedMask self f =
        dilate (erode (erode (dilate
          (inRange (hsvImage f) self.lower_green self.upper_green))))) ∧
    (∀ (find : Mask → List Contour) (self : TableDetector) (f : Frame), validFrame f →
      detect_table find self f =
        match find (cleanedMask self f) with
        | [] => .ok (none, cleanedMask self f)
        | cnt :: rest =>
          if contourArea (maxByArea cnt rest) < 1000 then .ok (none, cleanedMask self f)
          else .ok (some (maxByArea cnt rest), cleanedMask self f)) := by
  refine ⟨morphologyEx_close, morphologyEx_open, ?_, detect_eq⟩
  intro self f
  unfold cleanedMask
  rw [morphologyEx_open, morphologyEx_close]

/-- Witness for C4 at a concrete frame with no extracted contours. -/
theorem detect_morph_order_w :
    detect_table findNone TableDetector.init greenFrame =
      match findNone (cleanedMask TableDetector.init greenFrame) with
      | [] => .ok (none, cleanedMask TableDetector.init greenFrame)
      | cnt :: rest =>
        if contourArea (maxByArea cnt rest) < 1000
        then .ok (none, cleanedMask TableDetector.init greenFrame)
        else .ok (some (maxByArea cnt rest), cleanedMask TableDetector.init greenFrame) :=
  detect_morph_order.2.2.2 findNone TableDetector.init greenFrame (by decide)

/-- C5: a malformed frame — wrong channel count, zero height or zero width — makes
`detect_table` fail with the `invalidInput` error kind, which propagates to the
caller instead of a result. -/
theorem detect_invalid_input :
    ∀ (find : Mask → List Contour) (self : TableDetector) (f : Frame),
      f.c ≠ 3 ∨ f.h = 0 ∨ f.w = 0 →
      detect_table find self f = .error .invalidInput := by
  intro find self f hbad
  refine detect_invalid find self f ?_
  intro hv
  obtain ⟨h1, h2, h3⟩ := hv
  rcases hbad with hb | hb | hb
  · exact hb h1
  · omega
  · omega

/-- Witness for C5: a 1-channel grayscale frame is rejected. -/
theorem detect_invalid_input_w :
    detect_table findNone TableDetector.init grayFrame = .error .invalidInput :=
  detect_invalid_input findNone TableDetector.init grayFrame (Or.inl (by decide))

/-- C6: when the cleaned mask yields no contours, `detect_table` returns `(none, mask)`
with the fully computed cleaned mask; absence of a table is not an error. -/
theorem detect_no_contours :
    ∀ (find : Mask → List Contour) (self : TableDetector) (f : Frame), validFrame f →
      find (cleanedMask self f) = [] →
      detect_table find self f = .ok (none, cleanedMask self f) := by
  intro find self f hv hfind
  exact detect_eq_nil find self f hv hfind

/-- Witness for C6 at a concrete frame. -/
theorem detect_no_contours_w :
    detect_table findNone TableDetector.init greenFrame =
      .ok (none, cleanedMask TableDetector.init greenFrame) :=
  detect_no_contours findNone TableDetector.init greenFrame (by decide) rfl

/-- C7: on every successful call the returned mask has the frame's height and width
(it is single-channel by type) and every cell is 0 or 255. -/
theorem detect_mask_invariants :
    ∀ (find : Mask → List Contour) (self : TableDetector) (f : Frame)
      (r : Option Contour × Mask), detect_table find self f = .ok r →
      r.2.h = f.h ∧ r.2.w = f.w ∧ ∀ y x, r.2.data y x = 0 ∨ r.2.data y x = 255 := by
  intro find self f r h
  by_cases hv : validFrame f
  · cases hfind : find (cleanedMask self f) with
    | nil =>
      rw [detect_eq_nil find self f hv hfind] at h
      simp only [Except.ok.injEq] at h
      subst h
      exact ⟨cleanedMask_h self f, cleanedMask_w self f, cleanedMask_binOn self f⟩
    | cons cnt rest =>
      rw [detect_eq_cons find self f cnt rest hv hfind] at h
      by_cases harea : contourArea (maxByArea cnt rest) < 1000
      · rw [if_pos harea] at h
        simp only [Except.ok.injEq] at h
        subst h
        exact ⟨cleanedMask_h self f, cleanedMask_w self f, cleanedMask_binOn self f⟩
      · rw [if_neg harea] at h
        simp only [Except.ok.injEq] at h
        subst h
        exact ⟨cleanedMask_h self f, cleanedMask_w self f, cleanedMask_binOn self f⟩
  · rw [detect_invalid find self f hv] at h
    exact absurd h (by simp)

/-- Witness for C7 at a concrete frame and its returned mask. -/
theorem detect_mask_invariants_w :
    (cleanedMask TableDetector.init greenFrame).h = greenFrame.h ∧
    (cleanedMask TableDetector.init greenFrame).w = greenFrame.w ∧
    ((cleanedMask TableDetector.init greenFrame).data 0 0 = 0 ∨
     (cleanedMask TableDetector.init greenFrame).data 0 0 = 255) := by
  have h := detect_mask_invariants findNone TableDetector.init greenFrame
    (none, cleanedMask TableDetector.init greenFrame)
    (detect_eq_nil findNone TableDetector.init greenFrame (by decide) rfl)
  exact ⟨h.1, h.2.1, h.2.2 0 0⟩

/-- C8: `detect_table` is deterministic — on identical frames (same fixed
configuration and contour extraction) it yields identical results. -/
theorem detect_deterministic :
    ∀ (find : Mask → List Contour) (self : TableDetector) (f1 f2 : Frame), f1 = f2 →
      detect_table find self f1 = detect_table find self f2 := by
  intro find self f1 f2 h
  rw [h]

/-- Witness for C8 at a concrete frame. -/
theorem detect_deterministic_w :
    detect_table findNone TableDetector.init blackFrame =
      detect_table findNone TableDetector.init blackFrame :=
  detect_deterministic findNone TableDetector.init blackFrame blackFrame rfl

/-- C9: `detect_table` has no side effects — the state-explicit embedding returns the
input frame and the detector configuration unchanged, and its result component is the
pure function `detect_table` of the frame and the fixed configuration. -/
theorem detect_pure :
    ∀ (find : Mask → List Contour) (self : TableDetector) (f : Frame),
      detect_table_st find self f = (detect_table find self f, f, self) ∧
      (detect_table_st find self f).2.1 = f ∧
      (detect_table_st find self f).2.2 = self := by
  intro find self f
  exact ⟨rfl, rfl, rfl⟩

/-- C10: when several extracted contours attain the maximal enclosed area, the
selected contour is the first maximal one in extraction order: every contour before
it is strictly smaller, every contour overall is no larger, and when it passes the
area filter it is exactly what `detect_table` returns. -/
theorem detect_tie_first :
    ∀ (find : Mask → List Contour) (self : TableDetector) (f : Frame) (cnt : Contour)
      (rest : List Contour), validFrame f → find (cleanedMask self f) = cnt :: rest →
      ∃ l1 l2, cnt :: rest = l1 ++ maxByArea cnt rest :: l2 ∧
        (∀ d ∈ l1, contourArea d < contourArea (maxByArea cnt rest)) ∧
        (∀ d ∈ cnt :: rest, contourArea d ≤ contourArea (maxByArea cnt rest)) ∧
        ((1000 : ℚ) ≤ contourArea (maxByArea cnt rest) →
          detect_table find self f =
            .ok (some (maxByArea cnt rest), cleanedMask self f)) := by
  intro find self f cnt rest hv hfind
  obtain ⟨l1, l2, heq, hlt⟩ := maxByArea_first cnt rest
  refine ⟨l1, l2, heq, hlt, le_maxByArea cnt rest, fun harea => ?_⟩
  rw [detect_eq_cons find self f cnt rest hv hfind, if_neg (not_lt.mpr harea)]

/-- Witness for C10: two extracted contours of equal area 10000; the first one is
selected and returned. -/
theorem detect_tie_first_w :
    detect_table findTie TableDetector.init greenFrame =
      .ok (some (maxByArea sqBig [sqBig2]), cleanedMask TableDetector.init greenFrame) := by
  obtain ⟨l1, l2, heq, hlt, hle, hdet⟩ := detect_tie_first findTie TableDetector.init
    greenFrame sqBig [sqBig2] (by decide) (by decide)
  exact hdet ge1000_maxBigTie
